import Mathlib

/-!
Shallow embedding of `src/main.py` (a GitHub statistics aggregator): the
transport layer (`Queries.query`, `Queries.query_rest`), the paginated
repository fold of `Stats.get_stats`, the percentage derivation, the sorted
proportional-language view, the contribution aggregation
(`Stats.total_contributions`) and the memoized accessors, together with
theorems settling the specification claims.

Conventions used throughout:
* Python `dict.get(k, default)` on possibly-absent JSON keys is modelled by
  `Option` fields read with `Option.getD`.
* A Python exception escaping a piece of code (`AttributeError` from
  `None.get`, `ZeroDivisionError`, a network error) is modelled by the value
  `none` of an `Option`-typed result, or by an explicit `raised` constructor.
* Python `float` arithmetic is modelled by exact rational arithmetic (`ℚ`).
* The `async` machinery is irrelevant to the claims: every computation here
  is the sequential behaviour of the corresponding source code.
-/

/-! ## Transport layer (`Queries.query`, `Queries.query_rest`) -/

/-- Result of one call of a network channel: either the channel raised an
exception, or it returned a decoded JSON payload (`ret none` models a JSON
body that decodes to Python `None`). -/
inductive ChannelResult (α : Type) where
  | raise : ChannelResult α
  | ret : Option α → ChannelResult α
  deriving DecidableEq

/-- What `Queries.query` hands back to its caller: an escaped exception, a
JSON value, or the terminal `return dict()`. -/
inductive QueryResult (α : Type) where
  | raised : QueryResult α
  | json : α → QueryResult α
  | emptyDict : QueryResult α
  deriving DecidableEq

/-- Outcome of `Queries.query`, instrumented with the number of fallback
(`requests.post`) attempts that were started. -/
structure QueryRun (α : Type) where
  result : QueryResult α
  fallbackCalls : Nat
  deriving DecidableEq

/-- `Queries.query` (main.py lines 36-68): try the primary (aiohttp) channel;
a non-`None` JSON result is returned, a `None` result falls through to
`return dict()`.  On any exception the bare `except:` makes one fallback
attempt on the secondary (`requests`) channel; a `None` fallback result also
falls through to `return dict()`, but an exception raised by the fallback
itself is not caught anywhere and propagates to the caller. -/
def query {α : Type} (primary fallback : ChannelResult α) : QueryRun α :=
  match primary with
  | .ret (some j) => ⟨.json j, 0⟩
  | .ret none => ⟨.emptyDict, 0⟩
  | .raise =>
    match fallback with
    | .ret (some j) => ⟨.json j, 1⟩
    | .ret none => ⟨.emptyDict, 1⟩
    | .raise => ⟨.raised, 1⟩

/-- Outcome of the `requests.get` fallback inside one iteration of
`Queries.query_rest`: it raised, returned HTTP 202, returned HTTP 200 with a
JSON body (`none` = null body), or returned some other status (in which case
the iteration just ends and the loop continues). -/
inductive FallbackRes (α : Type) where
  | raise : FallbackRes α
  | s202 : FallbackRes α
  | s200 : Option α → FallbackRes α
  | sOther : FallbackRes α
  deriving DecidableEq

/-- Behaviour of the network during one iteration of `Queries.query_rest`:
the primary `aiohttp` GET either returns HTTP 202, returns a JSON body
(`none` = null, which makes the iteration fall through and the loop
continue), or raises, in which case the `requests` fallback runs with the
given outcome. -/
inductive RestAttempt (α : Type) where
  | p202 : RestAttempt α
  | pJson : Option α → RestAttempt α
  | pRaise : FallbackRes α → RestAttempt α
  deriving DecidableEq

/-- What `Queries.query_rest` hands back: an escaped exception, a JSON value,
the `None` returned by `return r_requests.json()` on a null 200 body, or the
`return dict()` after the 60 attempts are exhausted. -/
inductive RestResult (α : Type) where
  | raised : RestResult α
  | json : α → RestResult α
  | noneJson : RestResult α
  | emptyDict : RestResult α
  deriving DecidableEq

/-- Outcome of `Queries.query_rest`, instrumented with the number of loop
iterations begun and the total time units slept (`asyncio.sleep(2)` after
every 202 response). -/
structure RestRun (α : Type) where
  result : RestResult α
  attempts : Nat
  sleepUnits : Nat
  deriving DecidableEq

/-- The `for _ in range(60)` retry loop of `Queries.query_rest`
(main.py lines 78-119).  `oracle i` is the network behaviour of iteration
`i`; the arguments are the remaining iterations, the iterations already
begun, and the sleep units accumulated so far. -/
def queryRestLoop {α : Type} (oracle : Nat → RestAttempt α) :
    Nat → Nat → Nat → RestRun α
  | 0, att, slp => ⟨.emptyDict, att, slp⟩
  | n + 1, att, slp =>
    match oracle att with
    | .p202 => queryRestLoop oracle n (att + 1) (slp + 2)
    | .pJson (some j) => ⟨.json j, att + 1, slp⟩
    | .pJson none => queryRestLoop oracle n (att + 1) slp
    | .pRaise .raise => ⟨.raised, att + 1, slp⟩
    | .pRaise .s202 => queryRestLoop oracle n (att + 1) (slp + 2)
    | .pRaise (.s200 (some j)) => ⟨.json j, att + 1, slp⟩
    | .pRaise (.s200 none) => ⟨.noneJson, att + 1, slp⟩
    | .pRaise .sOther => queryRestLoop oracle n (att + 1) slp

/-- `Queries.query_rest`: up to 60 attempts, starting with nothing slept. -/
def query_rest {α : Type} (oracle : Nat → RestAttempt α) : RestRun α :=
  queryRestLoop oracle 60 0 0

/-! ## Repository entities and the dedup fold of `Stats.get_stats` -/

/-- `lang["node"]` of a language edge. -/
structure LangNode where
  name : Option String
  deriving DecidableEq

/-- One element of `languages.edges`. -/
structure LangEdge where
  size : Option Nat
  node : Option LangNode
  deriving DecidableEq

/-- The `languages` object of a repository node. -/
structure LanguagesObj where
  edges : Option (List LangEdge)
  deriving DecidableEq

/-- The `stargazers` object of a repository node. -/
structure Stargazers where
  totalCount : Option Nat
  deriving DecidableEq

/-- One element of the `nodes` arrays of the GraphQL response; `Option`
fields model possibly-absent JSON keys. -/
structure RepoEntity where
  nameWithOwner : Option String
  stargazers : Option Stargazers
  forkCount : Option Nat
  languages : Option LanguagesObj
  deriving DecidableEq

/-- The mutable aggregate built by `Stats.get_stats`: `_repos` (a set of
dedup keys, represented as a duplicate-free list), `_stargazers`, `_forks`,
and `_languages` (an insertion-ordered map language name ↦ accumulated byte
size). -/
structure AggState where
  repos : List (Option String)
  stargazers : Nat
  forks : Nat
  languages : List (String × Nat)
  deriving DecidableEq

/-- The state set up at the top of `Stats.get_stats`. -/
def initAgg : AggState := ⟨[], 0, 0, []⟩

/-- `languages[name]["size"] += size` resp. `languages[name] = {"size": size}`:
update the entry in place if the key is present, otherwise append a new
entry (Python dicts preserve insertion order). -/
def addLang : List (String × Nat) → String → Nat → List (String × Nat)
  | [], nm, sz => [(nm, sz)]
  | (k, v) :: rest, nm, sz =>
    if k = nm then (k, v + sz) :: rest else (k, v) :: addLang rest nm sz

/-- `lang.get("node", {}).get("name", "Other")`. -/
def langEdgeName (e : LangEdge) : String :=
  (e.node.getD ⟨none⟩).name.getD "Other"

/-- The inner `for lang in repo.get("languages", {}).get("edges", [])` loop. -/
def foldLangs (m : List (String × Nat)) (edges : List LangEdge) : List (String × Nat) :=
  edges.foldl (fun acc e => addLang acc (langEdgeName e) (e.size.getD 0)) m

/-- The body of the per-entity loop of `Stats.get_stats` (main.py 304-322).
`None` entities are skipped; an entity whose dedup key (`nameWithOwner`,
possibly absent) is already in `_repos` is skipped before anything else is
read from it; otherwise the key is recorded and stars, forks and language
sizes are accumulated.  `repo.get("stargazers").get("totalCount", 0)` has no
default on the outer access, so an entity without a `stargazers` key raises
`AttributeError` (modelled as `none`). -/
def stepRepo (s : AggState) : Option RepoEntity → Option AggState
  | none => some s
  | some r =>
    if r.nameWithOwner ∈ s.repos then some s
    else
      match r.stargazers with
      | none => none
      | some sg =>
        some { repos := r.nameWithOwner :: s.repos,
               stargazers := s.stargazers + sg.totalCount.getD 0,
               forks := s.forks + r.forkCount.getD 0,
               languages := foldLangs s.languages ((r.languages.getD ⟨none⟩).edges.getD []) }

/-- `for repo in repos: ...` — fold a page of entities, propagating a raised
exception. -/
def foldEntities (s : AggState) : List (Option RepoEntity) → Option AggState
  | [] => some s
  | e :: es =>
    match stepRepo s e with
    | none => none
    | some s2 => foldEntities s2 es

/-- An entity that cannot raise inside `stepRepo`: either `None` (skipped) or
carrying a `stargazers` object. -/
def safeEntity : Option RepoEntity → Bool
  | none => true
  | some r => r.stargazers.isSome

/-- Keep only the first occurrence of every dedup key, relative to the keys
already in `seen`; `None` entities are kept (the fold skips them anyway),
later duplicates are dropped entirely. -/
def dedupFirst (seen : List (Option String)) : List (Option RepoEntity) → List (Option RepoEntity)
  | [] => []
  | none :: es => none :: dedupFirst seen es
  | some r :: es =>
    if r.nameWithOwner ∈ seen then dedupFirst seen es
    else some r :: dedupFirst (r.nameWithOwner :: seen) es

/-! ## Percentage derivation and the sorted proportional view -/

/-- `langs_total = sum([v.get("size", 0) for v in self._languages.values()])`. -/
def totalSize (l : List (String × Nat)) : Nat := (l.map fun kv => kv.2).sum

/-- The loop `for k, v in self._languages.items():
v["prop"] = 100 * (v.get("size", 0) / langs_total)` (main.py 336-337).
Dividing by a zero total raises `ZeroDivisionError` (modelled as `none`);
this can only happen if at least one iteration runs, i.e. the map is
non-empty. -/
def propsLoop (T : Nat) : List (String × Nat) → Option (List (String × ℚ))
  | [] => some []
  | kv :: rest =>
    if T = 0 then none
    else
      match propsLoop T rest with
      | none => none
      | some ps => some ((kv.1, 100 * ((kv.2 : ℚ) / (T : ℚ))) :: ps)

/-- Lines 335-337 of main.py: compute `langs_total`, then the `prop` of
every language, in map order. -/
def deriveProps (l : List (String × Nat)) : Option (List (String × ℚ)) :=
  propsLoop (totalSize l) l

/-- Stable insertion, descending by value: `x` is placed before the first
element it is ≥, so among equal values the element that was earlier in the
input stays first — the behaviour of Python's stable
`sorted(..., key=lambda item: item[1], reverse=True)`. -/
def insertDesc (x : String × ℚ) : List (String × ℚ) → List (String × ℚ)
  | [] => [x]
  | y :: ys => if y.2 ≤ x.2 then x :: y :: ys else y :: insertDesc x ys

/-- Stable descending-by-value sort. -/
def sortDesc : List (String × ℚ) → List (String × ℚ)
  | [] => []
  | x :: xs => insertDesc x (sortDesc xs)

/-- `Stats.languages_proportional` applied to the sizes accumulated by the
fold: derive the `prop` of every language (as `get_stats` does just after
its loop), then return them sorted descending by value. -/
def lpView (l : List (String × Nat)) : Option (List (String × ℚ)) :=
  (deriveProps l).map sortDesc

/-! ## The pagination loop of `Stats.get_stats` -/

/-- `pageInfo` of one GraphQL connection; the outer `Option` of `endCursor`
models the key being absent (in which case `.get("endCursor", next_owned)`
keeps the previous cursor), the inner one models a null cursor value. -/
structure PageInfo where
  hasNextPage : Option Bool
  endCursor : Option (Option Nat)
  deriving DecidableEq

/-- One GraphQL connection (`repositories` or `repositoriesContributedTo`). -/
structure RawConnection where
  pageInfo : Option PageInfo
  nodes : Option (List (Option RepoEntity))
  deriving DecidableEq

/-- The `viewer` object of the GraphQL response. -/
structure Viewer where
  repositories : Option RawConnection
  repositoriesContributedTo : Option RawConnection
  deriving DecidableEq

/-- The `data` object of the GraphQL response. -/
structure RawData where
  viewer : Option Viewer
  deriving DecidableEq

/-- A decoded GraphQL response as consumed by `Stats.get_stats`
(`raw_results`); an empty dict has every field absent. -/
structure RawResult where
  data : Option RawData
  deriving DecidableEq

/-- The `while True` pagination loop of `Stats.get_stats` (main.py 282-334),
with explicit `fuel` (the source loop is unbounded) and a round counter.
`fetch` is the combined two-stream page query, taking the owned and
contributed cursors.  Each round concatenates the owned nodes with the
contributed nodes and folds them into the aggregate; the loop continues
while either connection reports `hasNextPage`, updating each cursor to the
reported `endCursor` when that key is present and keeping the previous
cursor otherwise.  The result is the aggregate paired with the number of
page-fetch rounds issued, or `none` if an entity raised or the fuel ran out
before both streams were exhausted. -/
def getStatsLoop (fetch : Option Nat → Option Nat → RawResult) :
    Nat → Option Nat → Option Nat → AggState → Nat → Option (AggState × Nat)
  | 0, _, _, _, _ => none
  | fuel + 1, nextOwned, nextContrib, s, rounds =>
    let raw := fetch nextOwned nextContrib
    let viewer := (raw.data.getD ⟨none⟩).viewer.getD ⟨none, none⟩
    let contribRepos := viewer.repositoriesContributedTo.getD ⟨none, none⟩
    let ownedRepos := viewer.repositories.getD ⟨none, none⟩
    match foldEntities s ((ownedRepos.nodes.getD []) ++ (contribRepos.nodes.getD [])) with
    | none => none
    | some s2 =>
      let oPI := ownedRepos.pageInfo.getD ⟨none, none⟩
      let cPI := contribRepos.pageInfo.getD ⟨none, none⟩
      if oPI.hasNextPage.getD false || cPI.hasNextPage.getD false then
        getStatsLoop fetch fuel
          (match oPI.endCursor with | none => nextOwned | some c => c)
          (match cPI.endCursor with | none => nextContrib | some c => c)
          s2 (rounds + 1)
      else
        some (s2, rounds + 1)

/-- A paginated test double for one stream: a cursor is the index of the
next page to serve (`none` = start of stream); a stream that has been
exhausted keeps serving its last page, which reports `hasNextPage = false`.
Every served page reports `hasNextPage` exactly when it is not the last
page of the stream, and always reports an `endCursor` pointing past itself. -/
def serveConn (pages : List (List (Option RepoEntity))) (cur : Option Nat) : RawConnection :=
  let j := min (cur.getD 0) (pages.length - 1)
  { pageInfo := some { hasNextPage := some (decide (j + 1 < pages.length)),
                       endCursor := some (some (j + 1)) },
    nodes := some (pages.getD j []) }

/-- The combined two-stream page query built from two concrete streams of
pages, as a test double for `Queries.query ∘ Queries.repos_overview`. -/
def fetchDouble (owned contrib : List (List (Option RepoEntity))) :
    Option Nat → Option Nat → RawResult :=
  fun oc cc =>
    { data := some { viewer := some { repositories := some (serveConn owned oc),
                                      repositoriesContributedTo := some (serveConn contrib cc) } } }

/-- `Stats.get_stats`: run the pagination loop from the freshly reset state
and null cursors, then derive the language percentages. -/
def get_stats (fetch : Option Nat → Option Nat → RawResult) (fuel : Nat) :
    Option (AggState × List (String × ℚ)) :=
  match getStatsLoop fetch fuel none none initAgg 0 with
  | none => none
  | some (s, _) =>
    match deriveProps s.languages with
    | none => none
    | some props => some (s, props)

/-! ## Contribution aggregation (`Stats.total_contributions`) -/

/-- `contributionCalendar` of one year sub-result. -/
structure Calendar where
  totalContributions : Option Nat
  deriving DecidableEq

/-- One year sub-result of the combined contributions query. -/
structure YearEntry where
  contributionCalendar : Option Calendar
  deriving DecidableEq

/-- One iteration of the final loop of `Stats.total_contributions`
(main.py 400-403): a `None` year sub-result raises `AttributeError`
(`None.get`, modelled as `none`); a present year contributes
`year.get("contributionCalendar", {}).get("totalContributions", 0)`. -/
def contribStep (total : Nat) : Option YearEntry → Option Nat
  | none => none
  | some y => some (total + ((y.contributionCalendar.getD ⟨none⟩).totalContributions.getD 0))

/-- Fold of `contribStep` over the year sub-results, starting from the
accumulator value. -/
def computeContribsAux (total : Nat) : List (Option YearEntry) → Option Nat
  | [] => some total
  | y :: ys =>
    match contribStep total y with
    | none => none
    | some t => computeContribsAux t ys

/-- The whole summation of `Stats.total_contributions`: the values of the
`viewer` dict (one per year; a year whose key is missing simply does not
appear in the list) summed from 0. -/
def computeContribs (byYear : List (Option YearEntry)) : Option Nat :=
  computeContribsAux 0 byYear

/-! ## Memoized accessors (`Stats` properties) -/

/-- The memoization fields of a `Stats` object; `_languages` holds, for each
language in insertion order, its accumulated size, paired with the parallel
list of derived `prop` percentages. -/
structure StatsState where
  _stargazers : Option Nat
  _forks : Option Nat
  _total_contributions : Option Nat
  _languages : Option (List (String × Nat) × List (String × ℚ))
  _repos : Option (List (Option String))
  deriving DecidableEq

/-- A fresh `Stats` object: nothing computed yet. -/
def initStats : StatsState := ⟨none, none, none, none, none⟩

/-- Environment of the repository-fold computation: the page-fetch function
and the fuel bounding the pagination loop. -/
structure Env where
  fetch : Option Nat → Option Nat → RawResult
  fuel : Nat

/-- `Stats.get_stats` as a state transformer on the memoization fields: on
success it overwrites the four repository-fold fields (which it reset at its
start) and leaves `_total_contributions` untouched. -/
def get_stats_full (fetch : Option Nat → Option Nat → RawResult) (fuel : Nat)
    (s : StatsState) : Option StatsState :=
  match get_stats fetch fuel with
  | none => none
  | some (agg, props) =>
    some { s with _stargazers := some agg.stargazers,
                  _forks := some agg.forks,
                  _languages := some (agg.languages, props),
                  _repos := some agg.repos }

/-- The `stargazers` property: return the cached value if present, otherwise
run `get_stats` and read the now-populated field.  The `Bool` records
whether the underlying computation was triggered by this call. -/
def stargazersAcc (env : Env) (s : StatsState) : Option (Nat × StatsState × Bool) :=
  match s._stargazers with
  | some v => some (v, s, false)
  | none =>
    match get_stats_full env.fetch env.fuel s with
    | none => none
    | some s2 =>
      match s2._stargazers with
      | none => none
      | some v => some (v, s2, true)

/-- The `forks` property. -/
def forksAcc (env : Env) (s : StatsState) : Option (Nat × StatsState × Bool) :=
  match s._forks with
  | some v => some (v, s, false)
  | none =>
    match get_stats_full env.fetch env.fuel s with
    | none => none
    | some s2 =>
      match s2._forks with
      | none => none
      | some v => some (v, s2, true)

/-- The `languages` property. -/
def languagesAcc (env : Env) (s : StatsState) :
    Option ((List (String × Nat) × List (String × ℚ)) × StatsState × Bool) :=
  match s._languages with
  | some v => some (v, s, false)
  | none =>
    match get_stats_full env.fetch env.fuel s with
    | none => none
    | some s2 =>
      match s2._languages with
      | none => none
      | some v => some (v, s2, true)

/-- The `repos` property. -/
def reposAcc (env : Env) (s : StatsState) :
    Option (List (Option String) × StatsState × Bool) :=
  match s._repos with
  | some v => some (v, s, false)
  | none =>
    match get_stats_full env.fetch env.fuel s with
    | none => none
    | some s2 =>
      match s2._repos with
      | none => none
      | some v => some (v, s2, true)

/-- The `languages_proportional` property: trigger `get_stats` if
`_languages` is unset, then return `{k: v.get("prop", 0)}` sorted descending
by value. -/
def languagesProportionalAcc (env : Env) (s : StatsState) :
    Option (List (String × ℚ) × StatsState × Bool) :=
  match s._languages with
  | some sp => some (sortDesc sp.2, s, false)
  | none =>
    match get_stats_full env.fetch env.fuel s with
    | none => none
    | some s2 =>
      match s2._languages with
      | none => none
      | some sp => some (sortDesc sp.2, s2, true)

/-- The `total_contributions` property (main.py 381-404): independent of the
repository fold; on a first call it runs the contribution summation and
caches only `_total_contributions`. -/
def totalContributionsAcc (byYear : List (Option YearEntry)) (s : StatsState) :
    Option (Nat × StatsState × Bool) :=
  match s._total_contributions with
  | some v => some (v, s, false)
  | none =>
    match computeContribs byYear with
    | none => none
    | some t => some (t, { s with _total_contributions := some t }, true)

/-- A degenerate environment whose every fetch yields an empty dict: the
loop stops after one round with nothing accumulated. -/
def env0 : Env := ⟨fun _ _ => ⟨none⟩, 1⟩

/-- The state `get_stats` produces under `env0`. -/
def statsS0 : StatsState := ⟨some 0, some 0, none, some ([], []), some []⟩

/-! ## Lemmas about the dedup fold -/

theorem stepRepo_mem {s : AggState} {r : RepoEntity}
    (h : r.nameWithOwner ∈ s.repos) : stepRepo s (some r) = some s := by
  simp [stepRepo, h]

theorem stepRepo_subset {s s1 : AggState} {e : Option RepoEntity}
    (h : stepRepo s e = some s1) : ∀ k ∈ s.repos, k ∈ s1.repos := by
  intro k hk
  cases e with
  | none =>
    simp only [stepRepo] at h
    cases h
    exact hk
  | some r =>
    by_cases hm : r.nameWithOwner ∈ s.repos
    · rw [stepRepo_mem hm] at h
      cases h
      exact hk
    · simp only [stepRepo, if_neg hm] at h
      cases hsg : r.stargazers with
      | none => rw [hsg] at h; cases h
      | some sg =>
        rw [hsg] at h
        cases h
        exact List.mem_cons_of_mem _ hk

theorem stepRepo_covers {s s1 : AggState} {r : RepoEntity}
    (h : stepRepo s (some r) = some s1) : r.nameWithOwner ∈ s1.repos := by
  by_cases hm : r.nameWithOwner ∈ s.repos
  · rw [stepRepo_mem hm] at h
    cases h
    exact hm
  · simp only [stepRepo, if_neg hm] at h
    cases hsg : r.stargazers with
    | none => rw [hsg] at h; cases h
    | some sg =>
      rw [hsg] at h
      cases h
      exact List.mem_cons_self _ _

theorem stepRepo_nodup {s s1 : AggState} {e : Option RepoEntity}
    (h : stepRepo s e = some s1) (hn : s.repos.Nodup) : s1.repos.Nodup := by
  cases e with
  | none => simp only [stepRepo] at h; cases h; exact hn
  | some r =>
    by_cases hm : r.nameWithOwner ∈ s.repos
    · rw [stepRepo_mem hm] at h; cases h; exact hn
    · simp only [stepRepo, if_neg hm] at h
      cases hsg : r.stargazers with
      | none => rw [hsg] at h; cases h
      | some sg =>
        rw [hsg] at h
        cases h
        exact List.nodup_cons.mpr ⟨hm, hn⟩

theorem foldEntities_subset {l : List (Option RepoEntity)} :
    ∀ {s s2 : AggState}, foldEntities s l = some s2 → ∀ k ∈ s.repos, k ∈ s2.repos := by
  induction l with
  | nil =>
    intro s s2 h k hk
    simp only [foldEntities] at h
    cases h
    exact hk
  | cons e es ih =>
    intro s s2 h k hk
    simp only [foldEntities] at h
    cases hst : stepRepo s e with
    | none => rw [hst] at h; cases h
    | some s1 =>
      rw [hst] at h
      exact ih h k (stepRepo_subset hst k hk)

theorem foldEntities_covers {l : List (Option RepoEntity)} :
    ∀ {s s2 : AggState}, foldEntities s l = some s2 →
      ∀ r : RepoEntity, some r ∈ l → r.nameWithOwner ∈ s2.repos := by
  induction l with
  | nil =>
    intro s s2 _ r hr
    cases hr
  | cons e es ih =>
    intro s s2 h r hr
    simp only [foldEntities] at h
    cases hst : stepRepo s e with
    | none => rw [hst] at h; cases h
    | some s1 =>
      rw [hst] at h
      rcases List.mem_cons.mp hr with he | he
      · subst he
        exact foldEntities_subset h _ (stepRepo_covers hst)
      · exact ih h r he

theorem foldEntities_nodup {l : List (Option RepoEntity)} :
    ∀ {s s2 : AggState}, foldEntities s l = some s2 → s.repos.Nodup → s2.repos.Nodup := by
  induction l with
  | nil =>
    intro s s2 h hn
    simp only [foldEntities] at h
    cases h
    exact hn
  | cons e es ih =>
    intro s s2 h hn
    simp only [foldEntities] at h
    cases hst : stepRepo s e with
    | none => rw [hst] at h; cases h
    | some s1 =>
      rw [hst] at h
      exact ih h (stepRepo_nodup hst hn)

theorem foldEntities_skip_all {l : List (Option RepoEntity)} :
    ∀ {s : AggState}, (∀ r : RepoEntity, some r ∈ l → r.nameWithOwner ∈ s.repos) →
      foldEntities s l = some s := by
  induction l with
  | nil => intro s _; rfl
  | cons e es ih =>
    intro s hall
    cases e with
    | none =>
      simp only [foldEntities, stepRepo]
      exact ih fun r hr => hall r (List.mem_cons_of_mem _ hr)
    | some r =>
      have hm : r.nameWithOwner ∈ s.repos := hall r (List.mem_cons_self _ _)
      simp only [foldEntities, stepRepo_mem hm]
      exact ih fun r2 hr2 => hall r2 (List.mem_cons_of_mem _ hr2)

theorem foldEntities_safe {l : List (Option RepoEntity)} :
    ∀ {s : AggState}, (∀ e ∈ l, safeEntity e = true) →
      ∃ s2, foldEntities s l = some s2 := by
  induction l with
  | nil => intro s _; exact ⟨s, rfl⟩
  | cons e es ih =>
    intro s hall
    have he : safeEntity e = true := hall e (List.mem_cons_self _ _)
    have hrest : ∀ e2 ∈ es, safeEntity e2 = true :=
      fun e2 h2 => hall e2 (List.mem_cons_of_mem _ h2)
    cases e with
    | none =>
      simp only [foldEntities, stepRepo]
      exact ih hrest
    | some r =>
      by_cases hm : r.nameWithOwner ∈ s.repos
      · simp only [foldEntities, stepRepo_mem hm]
        exact ih hrest
      · simp only [safeEntity, Option.isSome] at he
        cases hsg : r.stargazers with
        | none => rw [hsg] at he; cases he
        | some sg =>
          simp only [foldEntities, stepRepo, if_neg hm, hsg]
          exact ih hrest

theorem foldEntities_dedup :
    ∀ (l : List (Option RepoEntity)) (s : AggState),
      foldEntities s (dedupFirst s.repos l) = foldEntities s l := by
  intro l
  induction l with
  | nil => intro s; rfl
  | cons e es ih =>
    intro s
    cases e with
    | none =>
      simp only [dedupFirst, foldEntities, stepRepo]
      exact ih s
    | some r =>
      by_cases hm : r.nameWithOwner ∈ s.repos
      · simp only [dedupFirst, if_pos hm, foldEntities, stepRepo_mem hm]
        exact ih s
      · simp only [dedupFirst, if_neg hm, foldEntities]
        cases hsg : r.stargazers with
        | none => simp only [stepRepo, if_neg hm, hsg]
        | some sg =>
          simp only [stepRepo, if_neg hm, hsg]
          exact ih _

/-! ## Lemmas about the percentage derivation -/

theorem propsLoop_pos {T : Nat} (hT : T ≠ 0) :
    ∀ l : List (String × Nat),
      propsLoop T l = some (l.map fun kv => (kv.1, 100 * ((kv.2 : ℚ) / (T : ℚ)))) := by
  intro l
  induction l with
  | nil => rfl
  | cons kv rest ih =>
    simp only [propsLoop, if_neg hT, ih, List.map_cons]

theorem propsLoop_zero {l : List (String × Nat)} (hl : l ≠ []) :
    propsLoop 0 l = none := by
  cases l with
  | nil => exact absurd rfl hl
  | cons kv rest => rfl

theorem totalSize_cast (l : List (String × Nat)) :
    ((totalSize l : Nat) : ℚ) = (l.map fun kv => ((kv.2 : Nat) : ℚ)).sum := by
  induction l with
  | nil => rfl
  | cons kv rest ih =>
    simp only [totalSize, List.map_cons, List.sum_cons, Nat.cast_add] at *
    rw [ih]

theorem props_snd_sum (T : ℚ) (l : List (String × Nat)) :
    ((l.map fun kv => (kv.1, 100 * ((kv.2 : ℚ) / T))).map fun p => p.2).sum
      = 100 * (l.map fun kv => ((kv.2 : Nat) : ℚ)).sum / T := by
  induction l with
  | nil => simp
  | cons kv rest ih =>
    simp only [List.map_cons, List.sum_cons, ih]
    ring

theorem deriveProps_total_ne_zero {l : List (String × Nat)} (hT : totalSize l ≠ 0) :
    ∃ ps, deriveProps l = some ps ∧ (ps.map fun p => p.2).sum = 100 := by
  refine ⟨_, propsLoop_pos hT l, ?_⟩
  rw [props_snd_sum, ← totalSize_cast]
  have hQ : ((totalSize l : Nat) : ℚ) ≠ 0 := by
    exact_mod_cast hT
  field_simp

/-! ## Lemmas about the stable descending sort -/

theorem insertDesc_perm (x : String × ℚ) (l : List (String × ℚ)) :
    List.Perm (insertDesc x l) (x :: l) := by
  induction l with
  | nil => exact List.Perm.refl _
  | cons y ys ih =>
    by_cases hc : y.2 ≤ x.2
    · simp only [insertDesc, if_pos hc]
      exact List.Perm.refl _
    · simp only [insertDesc, if_neg hc]
      exact (ih.cons y).trans (List.Perm.swap x y ys)

theorem insertDesc_pairwise {x : String × ℚ} {l : List (String × ℚ)}
    (h : l.Pairwise fun a b => b.2 ≤ a.2) :
    (insertDesc x l).Pairwise fun a b => b.2 ≤ a.2 := by
  induction l with
  | nil => simp [insertDesc]
  | cons y ys ih =>
    rcases List.pairwise_cons.mp h with ⟨hy, hys⟩
    by_cases hc : y.2 ≤ x.2
    · simp only [insertDesc, if_pos hc]
      refine List.pairwise_cons.mpr ⟨?_, h⟩
      intro z hz
      rcases List.mem_cons.mp hz with hz | hz
      · subst hz; exact hc
      · exact le_trans (hy z hz) hc
    · simp only [insertDesc, if_neg hc]
      refine List.pairwise_cons.mpr ⟨?_, ih hys⟩
      intro z hz
      rcases List.mem_cons.mp ((insertDesc_perm x ys).mem_iff.mp hz) with hz | hz
      · subst hz; exact le_of_not_le hc
      · exact hy z hz

theorem sortDesc_pairwise (l : List (String × ℚ)) :
    (sortDesc l).Pairwise fun a b => b.2 ≤ a.2 := by
  induction l with
  | nil => simp [sortDesc]
  | cons x xs ih => exact insertDesc_pairwise ih

theorem sortDesc_perm (l : List (String × ℚ)) : List.Perm (sortDesc l) l := by
  induction l with
  | nil => rfl
  | cons x xs ih =>
    exact (insertDesc_perm x (sortDesc xs)).trans (ih.cons x)

theorem sortDesc_of_pairwise {l : List (String × ℚ)}
    (h : l.Pairwise fun a b => b.2 ≤ a.2) : sortDesc l = l := by
  induction l with
  | nil => rfl
  | cons x xs ih =>
    rcases List.pairwise_cons.mp h with ⟨hx, hxs⟩
    rw [sortDesc, ih hxs]
    cases xs with
    | nil => rfl
    | cons y ys =>
      have hy : y.2 ≤ x.2 := hx y (List.mem_cons_self _ _)
      simp only [insertDesc, if_pos hy]

/-! ## Lemmas about the pagination loop over the paginated test double -/

theorem list_getD_mem {α : Type} :
    ∀ (l : List α) (n : Nat) (d : α), n < l.length → l.getD n d ∈ l
  | a :: l, 0, _, _ => List.mem_cons_self a l
  | a :: l, n + 1, d, h => by
    have : l.getD n d ∈ l := list_getD_mem l n d (by simpa using h)
    simpa [List.getD] using List.mem_cons_of_mem a this

theorem getStatsLoop_double_step (owned contrib : List (List (Option RepoEntity)))
    (fuel : Nat) (co cc : Option Nat) (s s2 : AggState) (d : Nat)
    (hfold : foldEntities s
        ((owned.getD (min (co.getD 0) (owned.length - 1)) []) ++
         (contrib.getD (min (cc.getD 0) (contrib.length - 1)) [])) = some s2) :
    getStatsLoop (fetchDouble owned contrib) (fuel + 1) co cc s d =
      if decide (min (co.getD 0) (owned.length - 1) + 1 < owned.length)
          || decide (min (cc.getD 0) (contrib.length - 1) + 1 < contrib.length) then
        getStatsLoop (fetchDouble owned contrib) fuel
          (some (min (co.getD 0) (owned.length - 1) + 1))
          (some (min (cc.getD 0) (contrib.length - 1) + 1)) s2 (d + 1)
      else
        some (s2, d + 1) := by
  simp only [getStatsLoop, fetchDouble, serveConn, Option.getD_some, hfold]

theorem getStatsLoop_double_rounds {owned contrib : List (List (Option RepoEntity))}
    (hN : 1 ≤ owned.length) (hM : 1 ≤ contrib.length)
    (hsafe : ∀ p ∈ owned ++ contrib, ∀ e ∈ p, safeEntity e = true) :
    ∀ (fuel d : Nat) (s : AggState) (co cc : Option Nat),
      co.getD 0 = min d owned.length → cc.getD 0 = min d contrib.length →
      d < max owned.length contrib.length →
      max owned.length contrib.length ≤ d + fuel →
      ∃ s2, getStatsLoop (fetchDouble owned contrib) fuel co cc s d
              = some (s2, max owned.length contrib.length) := by
  intro fuel
  induction fuel with
  | zero =>
    intro d s co cc _ _ hlt hle
    omega
  | succ fuel ih =>
    intro d s co cc hco hcc hlt hle
    have hjO : min (co.getD 0) (owned.length - 1) = min d (owned.length - 1) := by
      rw [hco]; omega
    have hjC : min (cc.getD 0) (contrib.length - 1) = min d (contrib.length - 1) := by
      rw [hcc]; omega
    have hpO : owned.getD (min (co.getD 0) (owned.length - 1)) [] ∈ owned := by
      apply list_getD_mem
      omega
    have hpC : contrib.getD (min (cc.getD 0) (contrib.length - 1)) [] ∈ contrib := by
      apply list_getD_mem
      omega
    have hsafePage : ∀ e ∈ (owned.getD (min (co.getD 0) (owned.length - 1)) []) ++
        (contrib.getD (min (cc.getD 0) (contrib.length - 1)) []), safeEntity e = true := by
      intro e he
      rcases List.mem_append.mp he with he | he
      · exact hsafe _ (List.mem_append_left _ hpO) e he
      · exact hsafe _ (List.mem_append_right _ hpC) e he
    obtain ⟨s2, hfold⟩ := foldEntities_safe hsafePage
    rw [getStatsLoop_double_step owned contrib fuel co cc s s2 d hfold]
    by_cases hbr : d + 1 < max owned.length contrib.length
    · have hcond : (decide (min (co.getD 0) (owned.length - 1) + 1 < owned.length)
          || decide (min (cc.getD 0) (contrib.length - 1) + 1 < contrib.length)) = true := by
        rw [hjO, hjC]
        simp only [Bool.or_eq_true, decide_eq_true_eq]
        omega
      rw [hcond, if_pos rfl]
      apply ih (d + 1) s2
      · simp only [Option.getD_some]
        omega
      · simp only [Option.getD_some]
        omega
      · exact hbr
      · omega
    · have hcond : (decide (min (co.getD 0) (owned.length - 1) + 1 < owned.length)
          || decide (min (cc.getD 0) (contrib.length - 1) + 1 < contrib.length)) = false := by
        rw [hjO, hjC]
        simp only [Bool.or_eq_false_iff, decide_eq_false_iff_not]
        omega
      rw [hcond]
      simp only [Bool.false_eq_true, if_false]
      exact ⟨s2, by rw [show d + 1 = max owned.length contrib.length by omega]⟩

/-! ## Lemmas about the REST retry loop -/

theorem queryRestLoop_all202 {α : Type} {oracle : Nat → RestAttempt α}
    (h : ∀ i, oracle i = RestAttempt.p202) :
    ∀ n att slp, queryRestLoop oracle n att slp =
      ⟨RestResult.emptyDict, att + n, slp + 2 * n⟩ := by
  intro n
  induction n with
  | zero => intro att slp; simp [queryRestLoop]
  | succ n ih =>
    intro att slp
    have hstep : queryRestLoop oracle (n + 1) att slp = queryRestLoop oracle n (att + 1) (slp + 2) := by
      rw [queryRestLoop, h att]
    rw [hstep, ih]
    simp only [RestRun.mk.injEq]
    exact ⟨trivial, by omega, by omega⟩

theorem queryRestLoop_no_doubleraise {α : Type} {oracle : Nat → RestAttempt α}
    (h : ∀ i, oracle i ≠ RestAttempt.pRaise FallbackRes.raise) :
    ∀ n att slp, (queryRestLoop oracle n att slp).result ≠ RestResult.raised := by
  intro n
  induction n with
  | zero =>
    intro att slp hres
    simp [queryRestLoop] at hres
  | succ n ih =>
    intro att slp hres
    rw [queryRestLoop] at hres
    cases hor : oracle att with
    | p202 => rw [hor] at hres; exact ih _ _ hres
    | pJson j =>
      cases j with
      | none => rw [hor] at hres; exact ih _ _ hres
      | some v => rw [hor] at hres; simp at hres
    | pRaise fb =>
      cases fb with
      | raise => exact h att hor
      | s202 => rw [hor] at hres; exact ih _ _ hres
      | s200 j =>
        cases j with
        | none => rw [hor] at hres; simp at hres
        | some v => rw [hor] at hres; simp at hres
      | sOther => rw [hor] at hres; exact ih _ _ hres

theorem queryRestLoop_exhaust {α : Type} {oracle : Nat → RestAttempt α} :
    ∀ (n att slp : Nat),
      (∀ i, att ≤ i → i < att + n →
        oracle i = RestAttempt.p202 ∨ oracle i = RestAttempt.pJson none ∨
        oracle i = RestAttempt.pRaise FallbackRes.s202 ∨
        oracle i = RestAttempt.pRaise FallbackRes.sOther) →
      (queryRestLoop oracle n att slp).result = RestResult.emptyDict ∧
      (queryRestLoop oracle n att slp).attempts = att + n := by
  intro n
  induction n with
  | zero => intro att slp _; exact ⟨rfl, rfl⟩
  | succ n ih =>
    intro att slp h
    have hshift : ∀ i, att + 1 ≤ i → i < att + 1 + n →
        oracle i = RestAttempt.p202 ∨ oracle i = RestAttempt.pJson none ∨
        oracle i = RestAttempt.pRaise FallbackRes.s202 ∨
        oracle i = RestAttempt.pRaise FallbackRes.sOther :=
      fun i hi1 hi2 => h i (by omega) (by omega)
    rcases h att (le_refl att) (by omega) with h1 | h1 | h1 | h1
    · have hstep : queryRestLoop oracle (n + 1) att slp
          = queryRestLoop oracle n (att + 1) (slp + 2) := by
        rw [queryRestLoop, h1]
      obtain ⟨hres, hatt⟩ := ih (att + 1) (slp + 2) hshift
      exact ⟨by rw [hstep]; exact hres, by rw [hstep, hatt]; omega⟩
    · have hstep : queryRestLoop oracle (n + 1) att slp
          = queryRestLoop oracle n (att + 1) slp := by
        rw [queryRestLoop, h1]
      obtain ⟨hres, hatt⟩ := ih (att + 1) slp hshift
      exact ⟨by rw [hstep]; exact hres, by rw [hstep, hatt]; omega⟩
    · have hstep : queryRestLoop oracle (n + 1) att slp
          = queryRestLoop oracle n (att + 1) (slp + 2) := by
        rw [queryRestLoop, h1]
      obtain ⟨hres, hatt⟩ := ih (att + 1) (slp + 2) hshift
      exact ⟨by rw [hstep]; exact hres, by rw [hstep, hatt]; omega⟩
    · have hstep : queryRestLoop oracle (n + 1) att slp
          = queryRestLoop oracle n (att + 1) slp := by
        rw [queryRestLoop, h1]
      obtain ⟨hres, hatt⟩ := ih (att + 1) slp hshift
      exact ⟨by rw [hstep]; exact hres, by rw [hstep, hatt]; omega⟩

theorem insertDesc_filter (x : String × ℚ) (q : ℚ) :
    ∀ l : List (String × ℚ),
      (insertDesc x l).filter (fun p => decide (p.2 = q))
        = (x :: l).filter (fun p => decide (p.2 = q)) := by
  intro l
  induction l with
  | nil => rfl
  | cons y ys ih =>
    by_cases hc : y.2 ≤ x.2
    · rw [insertDesc, if_pos hc]
    · rw [insertDesc, if_neg hc]
      by_cases hx : x.2 = q
      · have hy : ¬y.2 = q := fun h => hc (le_of_eq (h.trans hx.symm))
        simp [List.filter_cons, hx, hy, ih]
      · simp [List.filter_cons, hx, ih]

theorem sortDesc_filter (q : ℚ) :
    ∀ l : List (String × ℚ),
      (sortDesc l).filter (fun p => decide (p.2 = q))
        = l.filter (fun p => decide (p.2 = q)) := by
  intro l
  induction l with
  | nil => rfl
  | cons x xs ih =>
    rw [sortDesc, insertDesc_filter]
    simp only [List.filter_cons, ih]

/-! ## Claim theorems -/

/-- C1: for every pair of entity streams (owned first, then contributed-to)
in which the same dedup key appears in both, the fold counts that repository
exactly once in the final repository set, adds its star and fork counts
exactly once, and takes its language sizes only from the first occurrence:
the fold of the concatenated streams equals the fold of the streams with
every later duplicate dropped entirely (including its language
contributions), the final repository set is duplicate-free, and a key
occurring in both streams has exactly one occurrence in it. -/
theorem C1_dedup_exactly_once (owned contrib : List (Option RepoEntity)) (s : AggState)
    (hn : s.repos.Nodup) :
    foldEntities s (owned ++ contrib)
      = foldEntities s (dedupFirst s.repos (owned ++ contrib))
    ∧ ∀ s2, foldEntities s (owned ++ contrib) = some s2 →
        s2.repos.Nodup ∧
        ∀ r r' : RepoEntity, some r ∈ owned → some r' ∈ contrib →
          r.nameWithOwner = r'.nameWithOwner →
          @List.count (Option String) instBEqOfDecidableEq r.nameWithOwner s2.repos = 1 := by
  constructor
  · exact (foldEntities_dedup (owned ++ contrib) s).symm
  · intro s2 h
    refine ⟨foldEntities_nodup h hn, ?_⟩
    intro r r' hr hr' _
    have hmem : r.nameWithOwner ∈ s2.repos :=
      foldEntities_covers h r (List.mem_append_left _ hr)
    exact List.count_eq_one_of_mem (foldEntities_nodup h hn) hmem

theorem C1_dedup_exactly_once_witness :
    foldEntities initAgg
        ([some ⟨some "u/a", some ⟨some 3⟩, some 1, none⟩] ++
         [some ⟨some "u/a", some ⟨some 7⟩, some 5, none⟩])
      = some ⟨[some "u/a"], 3, 1, []⟩
    ∧ @List.count (Option String) instBEqOfDecidableEq (some "u/a")
        (⟨[some "u/a"], 3, 1, []⟩ : AggState).repos = 1 := by
  have H := C1_dedup_exactly_once
    [some ⟨some "u/a", some ⟨some 3⟩, some 1, none⟩]
    [some ⟨some "u/a", some ⟨some 7⟩, some 5, none⟩]
    initAgg List.nodup_nil
  have h2 := H.2 ⟨[some "u/a"], 3, 1, []⟩ (by decide)
  exact ⟨by decide,
    h2.2 ⟨some "u/a", some ⟨some 3⟩, some 1, none⟩ ⟨some "u/a", some ⟨some 7⟩, some 5, none⟩
      (List.mem_cons_self _ _) (List.mem_cons_self _ _) rfl⟩

/-- C9: the per-entity fold is idempotent under the dedup key guard —
folding the same page a second time (in the exception monad of the source)
leaves the aggregate state unchanged beyond the first application. -/
theorem C9_fold_idempotent (s : AggState) (P : List (Option RepoEntity)) :
    (foldEntities s P).bind (fun s2 => foldEntities s2 P) = foldEntities s P := by
  cases h : foldEntities s P with
  | none => rfl
  | some s2 =>
    show foldEntities s2 P = some s2
    exact foldEntities_skip_all fun r hr => foldEntities_covers h r hr

/-- C10: an entity with no `nameWithOwner` key is processed on first sight —
its absent-name key (`none`) is added to the repository set (hence counted)
and its stars, forks and language sizes are accumulated — while every later
unnamed entity is skipped as a duplicate of that key, so a duplicate-free
state never counts the absent-name key more than once. -/
theorem C10_unnamed_entities :
    (∀ (s : AggState) (r : RepoEntity) (sg : Stargazers),
        r.nameWithOwner = none → (none : Option String) ∉ s.repos →
        r.stargazers = some sg →
        stepRepo s (some r) = some ⟨none :: s.repos,
          s.stargazers + sg.totalCount.getD 0,
          s.forks + r.forkCount.getD 0,
          foldLangs s.languages ((r.languages.getD ⟨none⟩).edges.getD [])⟩)
    ∧ (∀ (s : AggState) (r : RepoEntity), r.nameWithOwner = none →
        (none : Option String) ∈ s.repos → stepRepo s (some r) = some s)
    ∧ (∀ (s s2 : AggState) (P : List (Option RepoEntity)), s.repos.Nodup →
        foldEntities s P = some s2 →
        @List.count (Option String) instBEqOfDecidableEq none s2.repos ≤ 1) := by
  refine ⟨?_, ?_, ?_⟩
  · intro s r sg hname hmem hsg
    rw [show stepRepo s (some r)
        = if r.nameWithOwner ∈ s.repos then some s
          else match r.stargazers with
            | none => none
            | some sg =>
              some ⟨r.nameWithOwner :: s.repos,
                s.stargazers + sg.totalCount.getD 0,
                s.forks + r.forkCount.getD 0,
                foldLangs s.languages ((r.languages.getD ⟨none⟩).edges.getD [])⟩ from rfl]
    rw [hname] at *
    rw [if_neg hmem, hsg]
  · intro s r hname hmem
    exact stepRepo_mem (hname ▸ hmem)
  · intro s s2 P hn h
    exact List.nodup_iff_count_le_one.mp (foldEntities_nodup h hn) none

theorem C10_unnamed_entities_witness :
    stepRepo initAgg (some ⟨none, some ⟨some 2⟩, some 1, none⟩) = some ⟨[none], 2, 1, []⟩
    ∧ stepRepo ⟨[none], 2, 1, []⟩ (some ⟨none, some ⟨some 2⟩, some 1, none⟩)
        = some ⟨[none], 2, 1, []⟩
    ∧ @List.count (Option String) instBEqOfDecidableEq none [none] ≤ 1 := by
  have H := C10_unnamed_entities
  refine ⟨H.1 initAgg ⟨none, some ⟨some 2⟩, some 1, none⟩ ⟨some 2⟩ rfl (by decide) rfl,
    H.2.1 ⟨[none], 2, 1, []⟩ ⟨none, some ⟨some 2⟩, some 1, none⟩ rfl (by decide),
    H.2.2 initAgg ⟨[none], 2, 1, []⟩ [some ⟨none, some ⟨some 2⟩, some 1, none⟩]
      (by decide) (by decide)⟩

/-- C4: the claim says absent fields and null sub-results are treated as
zero and never abort accumulation, but the code aborts on two of them: an
entity without a `stargazers` key raises `AttributeError` in the fold
(`repo.get("stargazers").get(...)` has no default for the outer access), and
a `None` year sub-result raises `AttributeError` in the contribution sum
(`year.get(...)` on `None`).  By contrast a missing `forkCount` key really
is treated as zero, as the third conjunct shows. -/
theorem C4_missing_data_raises :
    stepRepo initAgg (some ⟨some "owner/repo", none, some 3, none⟩) = none
    ∧ computeContribs [none] = none
    ∧ stepRepo initAgg (some ⟨some "owner/repo", some ⟨some 4⟩, none, none⟩)
        = some ⟨[some "owner/repo"], 4, 0, []⟩ := by
  exact ⟨by decide, by decide, by decide⟩

/-- C2: the claim says derivation never divides by zero even for a non-empty
all-zero language map, but the code guards nothing: for the non-empty map
`{"X": {"size": 0}}` the total is zero and the first loop iteration raises
`ZeroDivisionError`; only the empty map avoids the division (no iteration
runs). -/
theorem C2_zero_total_divzero :
    deriveProps [("X", 0)] = none ∧ deriveProps [] = some [] := by
  exact ⟨rfl, rfl⟩

/-- C3 counterexample: when both the primary channel and the fallback
channel raise, `Queries.query` does not return an empty dict — the fallback
exception propagates to the caller. -/
theorem C3_both_channels_raise_cex :
    (query (ChannelResult.raise : ChannelResult Unit) ChannelResult.raise).result
      = QueryResult.raised
    ∧ (query (ChannelResult.raise : ChannelResult Unit) ChannelResult.raise).result
      ≠ QueryResult.emptyDict := by
  exact ⟨rfl, by decide⟩

/-- C3 amended: on any exception from the primary channel the Transport
makes exactly one fallback attempt on the secondary channel; the call raises
to the caller exactly when the fallback attempt itself raises; the GraphQL
query returns the empty dict exactly when a channel yields a null result
(primary null, or primary raising with fallback null), and a REST fetch that
never gets a returnable result (every attempt is a 202, a null primary body,
a fallback 202 or a fallback non-200/202 status) exhausts its 60 attempts
and returns the empty dict; a REST fetch never raises unless some iteration
has both its primary call and its fallback raise. -/
theorem C3_fallback_once_raise_iff {α : Type} (p f : ChannelResult α) :
    ((query p f).result = QueryResult.raised
      ↔ p = ChannelResult.raise ∧ f = ChannelResult.raise)
    ∧ ((query p f).result = QueryResult.emptyDict
      ↔ p = ChannelResult.ret none
        ∨ (p = ChannelResult.raise ∧ f = ChannelResult.ret none))
    ∧ (query p f).fallbackCalls
        = (match p with | ChannelResult.raise => 1 | ChannelResult.ret _ => 0)
    ∧ (∀ oracle : Nat → RestAttempt α,
        (∀ i, oracle i ≠ RestAttempt.pRaise FallbackRes.raise) →
        (query_rest oracle).result ≠ RestResult.raised)
    ∧ (∀ oracle : Nat → RestAttempt α,
        (∀ i, i < 60 →
          oracle i = RestAttempt.p202 ∨ oracle i = RestAttempt.pJson none ∨
          oracle i = RestAttempt.pRaise FallbackRes.s202 ∨
          oracle i = RestAttempt.pRaise FallbackRes.sOther) →
        (query_rest oracle).result = RestResult.emptyDict
        ∧ (query_rest oracle).attempts = 60) := by
  refine ⟨?_, ?_, ?_, ?_, ?_⟩
  · cases p with
    | raise =>
      cases f with
      | raise => simp [query]
      | ret o => cases o <;> simp [query]
    | ret o => cases o <;> simp [query]
  · cases p with
    | raise =>
      cases f with
      | raise => simp [query]
      | ret o => cases o <;> simp [query]
    | ret o => cases o <;> simp [query]
  · cases p with
    | raise => cases f with
      | raise => rfl
      | ret o => cases o <;> rfl
    | ret o => cases o <;> rfl
  · intro oracle h
    exact queryRestLoop_no_doubleraise h 60 0 0
  · intro oracle h
    exact queryRestLoop_exhaust 60 0 0 fun i hi1 hi2 => h i (by omega)

theorem C3_fallback_once_raise_iff_witness :
    (query (ChannelResult.ret none : ChannelResult Nat)
        ChannelResult.raise).result = QueryResult.emptyDict
    ∧ (query (ChannelResult.ret none : ChannelResult Nat)
        ChannelResult.raise).fallbackCalls = 0
    ∧ (query_rest (fun _ => (RestAttempt.p202 : RestAttempt Nat))).result
        ≠ RestResult.raised
    ∧ (query_rest (fun _ => (RestAttempt.p202 : RestAttempt Nat))).result
        = RestResult.emptyDict
    ∧ (query_rest (fun _ => (RestAttempt.p202 : RestAttempt Nat))).attempts = 60 := by
  have H := C3_fallback_once_raise_iff
    (ChannelResult.ret none : ChannelResult Nat) ChannelResult.raise
  have hex := H.2.2.2.2 (fun _ => RestAttempt.p202) (fun i _ => Or.inl rfl)
  exact ⟨H.2.1.mpr (Or.inl rfl), H.2.2.1,
    H.2.2.2.1 (fun _ => RestAttempt.p202) (fun i hi => RestAttempt.noConfusion hi),
    hex.1, hex.2⟩

/-- C5: with both streams paginated by the test double (N resp. M pages,
each page reporting `hasNextPage` exactly when it is not the last), the
pagination loop of `get_stats` keeps fetching while either stream reports
more pages, stops only when both report exhausted, and issues exactly
`max N M` page-fetch rounds. -/
theorem C5_pagination_rounds (owned contrib : List (List (Option RepoEntity))) (fuel : Nat)
    (hN : 1 ≤ owned.length) (hM : 1 ≤ contrib.length)
    (hfuel : max owned.length contrib.length ≤ fuel)
    (hsafe : ∀ p ∈ owned ++ contrib, ∀ e ∈ p, safeEntity e = true) :
    ∃ s2, getStatsLoop (fetchDouble owned contrib) fuel none none initAgg 0
            = some (s2, max owned.length contrib.length) := by
  apply getStatsLoop_double_rounds hN hM hsafe fuel 0 initAgg none none
  · simp
  · simp
  · omega
  · omega

theorem C5_pagination_rounds_witness :
    ∃ s2, getStatsLoop (fetchDouble [[]] [[], []]) 2 none none initAgg 0 = some (s2, 2) := by
  obtain ⟨s2, hs⟩ := C5_pagination_rounds [[]] [[], []] 2 (by decide) (by decide)
    (by decide) (by decide)
  exact ⟨s2, by simpa using hs⟩

/-- C6: a REST request answered with HTTP 202 on every attempt sleeps the
fixed 2-unit interval after each attempt, terminates after exactly 60
attempts, and returns the empty dict. -/
theorem C6_retry_bound {α : Type} (oracle : Nat → RestAttempt α)
    (h : ∀ i, oracle i = RestAttempt.p202) :
    query_rest oracle = ⟨RestResult.emptyDict, 60, 120⟩ := by
  rw [query_rest, queryRestLoop_all202 h 60 0 0]

theorem C6_retry_bound_witness :
    query_rest (fun _ => (RestAttempt.p202 : RestAttempt Unit))
      = ⟨RestResult.emptyDict, 60, 120⟩ :=
  C6_retry_bound _ (fun _ => rfl)

/-- C7: the five accessors backed by the repository fold share one
computation: a call on the uncomputed state runs `get_stats` once, after
which all four backing fields are populated (so all five accessors are
served), every accessor call on a computed state returns the cached value
with no recomputation, and the contribution-total accessor runs an
independent computation that touches none of the repository-fold fields
(nor does the repository fold touch `_total_contributions`). -/
theorem C7_shared_memoization (env : Env) (s1 : StatsState)
    (h : get_stats_full env.fetch env.fuel initStats = some s1) :
    (∃ a b rp sp,
        s1._stargazers = some a ∧ s1._forks = some b ∧ s1._repos = some rp ∧
        s1._languages = some sp ∧ s1._total_contributions = none ∧
        stargazersAcc env initStats = some (a, s1, true) ∧
        forksAcc env initStats = some (b, s1, true) ∧
        reposAcc env initStats = some (rp, s1, true) ∧
        languagesAcc env initStats = some (sp, s1, true) ∧
        languagesProportionalAcc env initStats = some (sortDesc sp.2, s1, true))
    ∧ (∀ (s : StatsState) (a : Nat), s._stargazers = some a →
        stargazersAcc env s = some (a, s, false))
    ∧ (∀ (s : StatsState) (b : Nat), s._forks = some b →
        forksAcc env s = some (b, s, false))
    ∧ (∀ (s : StatsState) rp, s._repos = some rp →
        reposAcc env s = some (rp, s, false))
    ∧ (∀ (s : StatsState) sp, s._languages = some sp →
        languagesAcc env s = some (sp, s, false))
    ∧ (∀ (s : StatsState) sp, s._languages = some sp →
        languagesProportionalAcc env s = some (sortDesc sp.2, s, false))
    ∧ (∀ byYear t s2, totalContributionsAcc byYear initStats = some (t, s2, true) →
        s2._stargazers = none ∧ s2._forks = none ∧ s2._languages = none ∧
        s2._repos = none) := by
  refine ⟨?_, ?_, ?_, ?_, ?_, ?_, ?_⟩
  · rw [get_stats_full] at h
    cases hg : get_stats env.fetch env.fuel with
    | none => rw [hg] at h; cases h
    | some pr =>
      obtain ⟨agg, props⟩ := pr
      rw [hg] at h
      injection h with h1
      subst h1
      exact ⟨agg.stargazers, agg.forks, agg.repos, (agg.languages, props),
        rfl, rfl, rfl, rfl, rfl,
        by simp [stargazersAcc, get_stats_full, hg, initStats],
        by simp [forksAcc, get_stats_full, hg, initStats],
        by simp [reposAcc, get_stats_full, hg, initStats],
        by simp [languagesAcc, get_stats_full, hg, initStats],
        by simp [languagesProportionalAcc, get_stats_full, hg, initStats]⟩
  · intro s a hs
    simp [stargazersAcc, hs]
  · intro s b hs
    simp [forksAcc, hs]
  · intro s rp hs
    simp [reposAcc, hs]
  · intro s sp hs
    simp [languagesAcc, hs]
  · intro s sp hs
    simp [languagesProportionalAcc, hs]
  · intro byYear t s2 hsome
    rw [totalContributionsAcc] at hsome
    cases hcc : computeContribs byYear with
    | none => rw [hcc] at hsome; cases hsome
    | some t2 =>
      rw [hcc] at hsome
      injection hsome with h1
      injection h1 with ha hb
      injection hb with hb _
      subst hb
      exact ⟨rfl, rfl, rfl, rfl⟩

theorem C7_shared_memoization_witness :
    stargazersAcc env0 initStats = some (0, statsS0, true)
    ∧ stargazersAcc env0 statsS0 = some (0, statsS0, false)
    ∧ languagesProportionalAcc env0 statsS0 = some ([], statsS0, false) := by
  have H := C7_shared_memoization env0 statsS0 rfl
  obtain ⟨a, b, rp, sp, ha, hb, hrp, hsp, htc, hacc, _, _, _, _⟩ := H.1
  have ha0 : a = 0 := by
    have h0 : (some 0 : Option Nat) = some a := ha
    injection h0 with h1
    exact h1.symm
  refine ⟨by rw [← ha0]; exact hacc, H.2.1 statsS0 0 rfl, ?_⟩
  exact H.2.2.2.2.2.1 statsS0 ([], []) rfl

/-- C8: the proportional view returns the derived language-to-percentage
mapping sorted by percentage descending with ties broken by first-insertion
order: the output is sorted, is a permutation of the derived mapping, and
for every percentage value the entries carrying that value appear in
exactly the derived map's (insertion) order — which pins the tie order for
every input; an already-ordered input, ties included, is returned
unchanged; in particular the accumulated sizes Go 300, Rust 100, Other 0
yield Go 75.0, Rust 25.0, Other 0.0 in that order. -/
theorem C8_proportional_view :
    lpView [("Go", 300), ("Rust", 100), ("Other", 0)]
      = some [("Go", 75), ("Rust", 25), ("Other", 0)]
    ∧ (∀ l ps, lpView l = some ps →
        ps.Pairwise (fun a b => b.2 ≤ a.2)
        ∧ ∃ ds, deriveProps l = some ds ∧ List.Perm ps ds
            ∧ ∀ q : ℚ, ps.filter (fun p => decide (p.2 = q))
                = ds.filter (fun p => decide (p.2 = q)))
    ∧ (∀ ps : List (String × ℚ), ps.Pairwise (fun a b => b.2 ≤ a.2) →
        sortDesc ps = ps) := by
  refine ⟨?_, ?_, ?_⟩
  · have h400 : totalSize [("Go", 300), ("Rust", 100), ("Other", 0)] ≠ 0 := by decide
    have hd := propsLoop_pos h400 [("Go", 300), ("Rust", 100), ("Other", 0)]
    rw [lpView, deriveProps, hd]
    have hT : ((totalSize [("Go", 300), ("Rust", 100), ("Other", 0)] : Nat) : ℚ) = 400 := by
      norm_num [totalSize]
    simp only [List.map_cons, List.map_nil, hT, Option.map_some]
    norm_num [sortDesc, insertDesc]
  · intro l ps h
    rw [lpView] at h
    cases hd : deriveProps l with
    | none => rw [hd] at h; cases h
    | some ds =>
      rw [hd] at h
      injection h with h1
      subst h1
      exact ⟨sortDesc_pairwise ds, ds, rfl, sortDesc_perm ds,
        fun q => sortDesc_filter q ds⟩
  · intro ps hps
    exact sortDesc_of_pairwise hps

theorem C8_proportional_view_witness :
    ∃ ps ds, lpView [("Go", 300), ("Rust", 100), ("Other", 0)] = some ps
      ∧ ps.Pairwise (fun a b => b.2 ≤ a.2)
      ∧ deriveProps [("Go", 300), ("Rust", 100), ("Other", 0)] = some ds
      ∧ ps.filter (fun p => decide (p.2 = (25 : ℚ)))
          = ds.filter (fun p => decide (p.2 = (25 : ℚ))) := by
  have H := C8_proportional_view
  obtain ⟨hpw, ds, hds, hperm, hstab⟩ := H.2.1 _ _ H.1
  exact ⟨_, ds, H.1, hpw, hds, hstab 25⟩
